import Mathlib

set_option maxHeartbeats 1000000
set_option maxRecDepth 10000

/-!
Verification of the `typed_json` repository (files `src/typed_json.py` and
`src/deserialize_exception.py`) against its natural-language specification.

Shallow embedding conventions:

* JSON text is modelled by its parse tree: the external `json.loads` /
  `json.dumps` codec is assumed correct and total over well-formed JSON text
  (spec section 6 treats it as a black box), so at the model level both are the
  identity and a "JSON string" is simply a JSON-shaped `PyVal`.
* Python runtime values are `PyVal`; numbers are modelled as integers (no claim
  depends on float-specific behaviour, and the `float` annotation is not
  exercised by any claim).
* A Python class is a `ClassDef`: a name plus a member table, as exposed by
  `inspect.getmembers` on the class.  `Member.init ps` is the `__init__`
  function with its `inspect.signature` parameter list (the `self` parameter
  included, exactly as `inspect` reports it).  Class identity for `isinstance`
  is nominal, modelled by comparing class names.
* Exceptions are values of `PyErr`.  `PyErr.deserialize msg cause` is the
  repository's `DeserializeException` (which carries only a message); the
  `cause` field models Python's `raise ... from ...` chaining used at
  `typed_json.py` line 68.  `PyErr.typeError` models host-level `TypeError`s
  raised by the Python runtime itself (e.g. `"id" in 5`).
* Recursion through nested loads is bounded by an explicit fuel parameter
  (`PyErr.fuelOut` / `Option.none` when exhausted); every theorem supplies
  fuel at least the size of the value involved, which is always sufficient.
-/

namespace TypedJSON

/-- Exceptions observable from `load` / `dumps`.  `deserialize` is the single
`DeserializeException` class of `src/deserialize_exception.py`: it stores only
the message passed to it; `cause` is the `__cause__` set by `raise ... from`.
`typeError` models Python `TypeError`s not caught by the code. -/
inductive PyErr where
  | deserialize (msg : String) (cause : Option PyErr)
  | typeError (msg : String)
  | fuelOut

mutual

/-- A type annotation as it appears on an `__init__` parameter: one of the
primitive classes hard-coded in `typed_json.py` (`int`, `bool`, `str`,
`list` — `float` is omitted since numbers are modelled as integers), a
user-defined class, or `inspect._empty` (parameter without annotation, as on
`object.__init__`'s `self`, `*args`, `**kwargs`). -/
inductive Annot where
  | aInt
  | aBool
  | aStr
  | aList
  | aEmpty
  | aCls (c : ClassDef)

/-- A class, as the reflection oracle exposes it: its `__name__` and the
member table seen by `inspect.getmembers` on the class. -/
inductive ClassDef where
  | mk (cname : String) (members : List (String × Member))

/-- One class member: the `__init__` function (with its signature), an
ordinary method, a plain class attribute holding a value, or a `property`
whose getter returns the stored value when read through an instance. -/
inductive Member where
  | init (ps : List Param)
  | meth
  | attr (v : PyVal)
  | prop (v : PyVal)

/-- One `inspect.Parameter`: name, annotation, and default
(`Option.none` models `inspect._empty`, i.e. no default). -/
inductive Param where
  | mk (pname : String) (ann : Annot) (dflt : Option PyVal)

/-- Python runtime values.  `vNone`/`vBool`/`vInt`/`vStr`/`vList`/`vDict`
cover the JSON-shaped values produced by `json.loads`; `vInst c attrs` is an
instance of class `c` with instance attribute dictionary `attrs`; `vMeth` is a
bound method object; `vPropObj` is a raw `property` descriptor object. -/
inductive PyVal where
  | vNone
  | vBool (b : Bool)
  | vInt (n : Int)
  | vStr (s : String)
  | vList (xs : List PyVal)
  | vDict (fields : List (String × PyVal))
  | vInst (c : ClassDef) (attrs : List (String × PyVal))
  | vMeth (mname : String)
  | vPropObj

end

/-- Class name projection (`__name__`). -/
def ClassDef.cname : ClassDef → String
  | .mk n _ => n

/-- Class member table projection. -/
def ClassDef.members : ClassDef → List (String × Member)
  | .mk _ ms => ms

/-- Parameter name projection. -/
def Param.pname : Param → String
  | .mk n _ _ => n

/-- Parameter annotation projection. -/
def Param.ann : Param → Annot
  | .mk _ a _ => a

/-- Parameter default projection. -/
def Param.dflt : Param → Option PyVal
  | .mk _ _ d => d

/-! ## String utilities (substring test, sorting, prefixes)

These model, respectively, Python's `in` on strings, the alphabetical order
`inspect.getmembers` sorts by, and `str.startswith`. -/

/-- Boolean list-prefix test on characters. -/
def pfxChk : List Char → List Char → Bool
  | [], _ => true
  | _ :: _, [] => false
  | a :: as, b :: bs => a == b && pfxChk as bs

/-- Boolean substring test on character lists. -/
def infChk (needle : List Char) : List Char → Bool
  | [] => pfxChk needle []
  | c :: rest => pfxChk needle (c :: rest) || infChk needle rest

/-- Python's `needle in hay` on strings: substring containment. -/
def hasSubstr (needle hay : String) : Bool :=
  infChk needle.toList hay.toList

/-- `str.startswith("__")`, the dunder test of `typed_json.py` line 123. -/
def dunderChk (nm : String) : Bool :=
  pfxChk ("__").toList nm.toList

/-- Lexicographic comparison of strings by character code, used to model the
alphabetical sort performed by `inspect.getmembers`. -/
def charsLe : List Char → List Char → Bool
  | [], _ => true
  | _ :: _, [] => false
  | a :: as, b :: bs =>
    if a.val < b.val then true
    else if b.val < a.val then false
    else charsLe as bs

/-- Insert a string into a sorted list. -/
def insStr (s : String) : List String → List String
  | [] => [s]
  | t :: ts => if charsLe s.toList t.toList then s :: t :: ts else t :: insStr s ts

/-- Insertion sort on strings (the order `inspect.getmembers` returns). -/
def sortStr : List String → List String
  | [] => []
  | s :: ss => insStr s (sortStr ss)

/-- Remove duplicate names (`dir` reports each attribute name once). -/
def dedupStr : List String → List String
  | [] => []
  | s :: rest =>
    let r := dedupStr rest
    if s ∈ r then r else s :: r

/-! ## Python runtime primitives used by the source -/

/-- First binding of a key in an attribute dictionary. -/
def dictGet : List (String × PyVal) → String → Option PyVal
  | [], _ => Option.none
  | (k, v) :: rest, key => if k = key then some v else dictGet rest key

/-- First member of a class member table with the given name. -/
def memberGet : List (String × Member) → String → Option Member
  | [], _ => Option.none
  | (k, m) :: rest, key => if k = key then some m else memberGet rest key

/-- Python type name of a value, as it appears in `TypeError` messages. -/
def typeNameOf : PyVal → String
  | .vNone => "NoneType"
  | .vBool _ => "bool"
  | .vInt _ => "int"
  | .vStr _ => "str"
  | .vList _ => "list"
  | .vDict _ => "dict"
  | .vInst c _ => c.cname
  | .vMeth _ => "method"
  | .vPropObj => "property"

/-- Python's `key in value` for a string key: key membership on dicts,
substring on strings, element equality on lists, and a `TypeError` on
non-iterable values such as numbers, booleans and `None`.  This is the exact
operation at `typed_json.py` lines 82 and 155. -/
def pyContains (v : PyVal) (key : String) : Except PyErr Bool :=
  match v with
  | .vDict l => .ok (dictGet l key).isSome
  | .vStr s => .ok (hasSubstr key s)
  | .vList xs =>
    .ok (xs.any fun x =>
      match x with
      | .vStr s => s == key
      | _ => false)
  | other =>
    .error (.typeError ("argument of type \x27" ++ typeNameOf other ++ "\x27 is not iterable"))

/-- Python's `value[key]` for a string key (`typed_json.py` lines 83, 156).
Only dict subscription succeeds; the dict-miss `KeyError` branch is modelled
as an error value but is unreachable because every subscription in the source
is guarded by `key in value`. -/
def pyGetItem (v : PyVal) (key : String) : Except PyErr PyVal :=
  match v with
  | .vDict l =>
    match dictGet l key with
    | some w => .ok w
    | Option.none => .error (.typeError ("KeyError: \x27" ++ key ++ "\x27"))
  | .vStr _ => .error (.typeError ("string indices must be integers"))
  | .vList _ => .error (.typeError ("list indices must be integers or slices, not str"))
  | other =>
    .error (.typeError ("\x27" ++ typeNameOf other ++ "\x27 object is not subscriptable"))

/-- `isinstance(value, annotation)` (`typed_json.py` line 64).  Note the
Python fact that `bool` is a subclass of `int`, so a boolean is an instance of
`int`.  Class checks are nominal, by class name. -/
def isinstanceOf (v : PyVal) : Annot → Bool
  | .aInt =>
    match v with
    | .vInt _ => true
    | .vBool _ => true
    | _ => false
  | .aBool =>
    match v with
    | .vBool _ => true
    | _ => false
  | .aStr =>
    match v with
    | .vStr _ => true
    | _ => false
  | .aList =>
    match v with
    | .vList _ => true
    | _ => false
  | .aEmpty => false
  | .aCls c =>
    match v with
    | .vInst c2 _ => c2.cname == c.cname
    | _ => false

/-- The membership test `parameter_obj.annotation in (int, float, bool, str, list)`
of `typed_json.py` line 158 (`float` carries no modelled values). -/
def annInPrimTuple : Annot → Bool
  | .aInt => true
  | .aBool => true
  | .aStr => true
  | .aList => true
  | _ => false

/-- The serializer's value-primitive test
`any(isinstance(member_value, typ) for typ in (int, float, bool, str, list))`
(`typed_json.py` line 129). -/
def isPrimVal : PyVal → Bool
  | .vInt _ => true
  | .vBool _ => true
  | .vStr _ => true
  | .vList _ => true
  | _ => false

/-- `isinstance(member_obj, property)` (`typed_json.py` line 125). -/
def isPropObjV : PyVal → Bool
  | .vPropObj => true
  | _ => false

/-! ## Python `str()` / `repr()` of values, for exception message text -/

/-- Join strings with a separating `", "`. -/
def joinComma : List String → String
  | [] => ""
  | [s] => s
  | s :: rest => s ++ ", " ++ joinComma rest

mutual

/-- Python `repr` of a value (module qualification of classes elided). -/
def pyRepr : PyVal → String
  | .vNone => "None"
  | .vBool b => if b then "True" else "False"
  | .vInt n => toString n
  | .vStr s => "\x27" ++ s ++ "\x27"
  | .vList xs => "[" ++ joinComma (pyReprList xs) ++ "]"
  | .vDict l => "\x7b" ++ joinComma (pyReprEntries l) ++ "\x7d"
  | .vInst c _ => "<" ++ c.cname ++ " object>"
  | .vMeth n => "<bound method " ++ n ++ ">"
  | .vPropObj => "<property object>"

/-- `repr` of each element of a list. -/
def pyReprList : List PyVal → List String
  | [] => []
  | x :: xs => pyRepr x :: pyReprList xs

/-- `repr` of each `key: value` entry of a dict. -/
def pyReprEntries : List (String × PyVal) → List String
  | [] => []
  | (k, v) :: rest => ("\x27" ++ k ++ "\x27: " ++ pyRepr v) :: pyReprEntries rest

end

/-- Python `str` of a value: like `repr` except that strings print without
quotes (the f-string interpolation `f"Value {value} ..."` uses `str`). -/
def pyStr : PyVal → String
  | .vStr s => s
  | v => pyRepr v

/-- Python `str` of an annotation, e.g. `<class 'int'>` (module qualification
of user classes elided). -/
def annStr : Annot → String
  | .aInt => "<class \x27int\x27>"
  | .aBool => "<class \x27bool\x27>"
  | .aStr => "<class \x27str\x27>"
  | .aList => "<class \x27list\x27>"
  | .aEmpty => "<class \x27inspect._empty\x27>"
  | .aCls c => "<class \x27" ++ c.cname ++ "\x27>"

/-! ## The exception messages of `typed_json.py` -/

/-- Message of `_fetch_initializer_members` (line 53).  For an ordinary class
`self.typ.__class__.__name__` is the metaclass name, literally `"type"`. -/
def schemaMsg : String := "Type type does not have one init method."

/-- Message of the missing-parameter error (lines 86 and 166). -/
def missingMsg (p : String) : String :=
  "Parameter " ++ p ++ " could not be found in JSON and has no default value"

/-- Message of the cast error of `_verify_member_type` (line 68). -/
def castMsg (value : PyVal) (ann : Annot) (inner : String) : String :=
  "Value " ++ pyStr value ++ " cannot be cast as " ++ annStr ann ++ ": " ++ inner

/-- Message used when `inspect.signature` is applied to a non-function
`__init__` member (unreachable for ordinary classes). -/
def sigMsg : String := "unsupported callable"

/-! ## `inspect.getmembers` on an instance

`inspect.getmembers(obj)` enumerates the names visible on `obj` (instance
attributes and class members), sorted alphabetically, each paired with
`getattr(obj, name)`.  Instance attributes shadow class members; reading a
class `property` through the instance runs the getter (modelled as returning
the stored value), so the raw descriptor object is never returned. -/

/-- `getattr` through an instance for a class member. -/
def memberValue (nm : String) : Member → PyVal
  | .init _ => .vMeth nm
  | .meth => .vMeth nm
  | .attr v => v
  | .prop v => v

/-- `getattr(obj, nm)` on an instance of class `c` with attribute dict
`attrs`. -/
def getattrI (c : ClassDef) (attrs : List (String × PyVal)) (nm : String) : Option PyVal :=
  match dictGet attrs nm with
  | some v => some v
  | Option.none => (memberGet c.members nm).map (memberValue nm)

/-- The sorted, duplicate-free name list `dir` produces for an instance. -/
def memberNames (c : ClassDef) (attrs : List (String × PyVal)) : List String :=
  sortStr (dedupStr (attrs.map Prod.fst ++ c.members.map Prod.fst))

/-- `inspect.getmembers(obj)`.  For non-instance values (numbers, strings,
methods, `None`, ...) the model reports no non-dunder members; the only
values the source serializes recursively in the claims below are instances
and methods, whose Python member lists agree with this simplification up to
members that the claims never observe. -/
def getmembersV : PyVal → List (String × PyVal)
  | .vInst c attrs =>
    (memberNames c attrs).filterMap fun nm => (getattrI c attrs nm).map fun v => (nm, v)
  | _ => []

/-! ## Schema resolution (`_get_all_class_members` + `_fetch_initializer_members`) -/

/-- The parameter list of `object.__init__`: `(self, /, *args, **kwargs)`,
every parameter unannotated and without default, which is the signature
`inspect.signature` reports for the `__init__` of the builtin classes
`int`, `bool`, `str`, `list` and of `inspect._empty`. -/
def objInitPs : List Param :=
  [.mk ("self") .aEmpty Option.none,
   .mk ("args") .aEmpty Option.none,
   .mk ("kwargs") .aEmpty Option.none]

/-- A builtin class: its member table contains (at least, and relevantly for
the source, exactly) the inherited `object.__init__`. -/
def builtinCls (nm : String) : ClassDef :=
  .mk nm [("__init__", .init objInitPs)]

/-- The class `TypedJSON(annotation)` introspects for a given annotation. -/
def resolveAnnot : Annot → ClassDef
  | .aInt => builtinCls ("int")
  | .aBool => builtinCls ("bool")
  | .aStr => builtinCls ("str")
  | .aList => builtinCls ("list")
  | .aEmpty => builtinCls ("_empty")
  | .aCls c => c

/-- `self.initializer_members`: the members named `__init__`
(`typed_json.py` lines 49-51). -/
def initFilter (c : ClassDef) : List (String × Member) :=
  c.members.filter fun kv => kv.1 == "__init__"

/-- The `__init__` parameter names of the class behind an annotation (empty
when the class does not expose exactly one function `__init__`). -/
def initParamNames (t : Annot) : List String :=
  match initFilter (resolveAnnot t) with
  | [(_, .init ps)] => ps.map Param.pname
  | _ => []

/-! ## The mapper: `load` (validation + construction) and `dumps` -/

/-- `_verify_member_type(member, value)` (`typed_json.py` lines 62-68),
parameterized by the recursive `TypedJSON(annotation).load` call.  If the
value is not an instance of the declared annotation, the source re-serializes
it and attempts a full nested load; a `DeserializeException` from that load is
wrapped in a cast error chained via `raise ... from`, while any other
exception (e.g. `TypeError`) propagates unchanged. -/
def verifyMemberTypeF (loadFn : Annot → PyVal → Except PyErr PyVal)
    (p : Param) (value : PyVal) : Except PyErr Unit :=
  if isinstanceOf value p.ann then .ok ()
  else
    match loadFn p.ann value with
    | .ok _ => .ok ()
    | .error (.deserialize m c) =>
      .error (.deserialize (castMsg value p.ann m) (some (.deserialize m c)))
    | .error e => .error e

/-- `verify_members(json_str)` (`typed_json.py` lines 70-86): walk the
initializer signature in declaration order, skipping `self`; a present value
is type-checked, an absent one must carry a default. -/
def verifyMembersF (loadFn : Annot → PyVal → Except PyErr PyVal) :
    List Param → PyVal → Except PyErr Unit
  | [], _ => .ok ()
  | p :: ps, data =>
    if p.pname = "self" then verifyMembersF loadFn ps data
    else
      match pyContains data p.pname with
      | .error e => .error e
      | .ok true =>
        match pyGetItem data p.pname with
        | .error e => .error e
        | .ok v =>
          match verifyMemberTypeF loadFn p v with
          | .error e => .error e
          | .ok _ => verifyMembersF loadFn ps data
      | .ok false =>
        match p.dflt with
        | Option.none => .error (.deserialize (missingMsg p.pname) Option.none)
        | some _ => verifyMembersF loadFn ps data

/-- The argument-assembly loop of `_deserialize` (`typed_json.py` lines
149-167): for each non-`self` parameter, use the raw value for a primitive
annotation, recursively load a nested object otherwise, and fall back to the
declared default when the key is absent.  Returns `constructor_args` in
declaration order. -/
def deserializeArgsF (loadFn : Annot → PyVal → Except PyErr PyVal) :
    List Param → PyVal → Except PyErr (List (String × PyVal))
  | [], _ => .ok []
  | p :: ps, data =>
    if p.pname = "self" then deserializeArgsF loadFn ps data
    else
      match pyContains data p.pname with
      | .error e => .error e
      | .ok true =>
        match pyGetItem data p.pname with
        | .error e => .error e
        | .ok v =>
          if annInPrimTuple p.ann then
            match deserializeArgsF loadFn ps data with
            | .error e => .error e
            | .ok rest => .ok ((p.pname, v) :: rest)
          else
            match loadFn p.ann v with
            | .error e => .error e
            | .ok nested =>
              match deserializeArgsF loadFn ps data with
              | .error e => .error e
              | .ok rest => .ok ((p.pname, nested) :: rest)
      | .ok false =>
        match p.dflt with
        | Option.none => .error (.deserialize (missingMsg p.pname) Option.none)
        | some d =>
          match deserializeArgsF loadFn ps data with
          | .error e => .error e
          | .ok rest => .ok ((p.pname, d) :: rest)

/-- `TypedJSON(typ).load(json_str)` (`typed_json.py` lines 87-98), with
`json_str` given by its parse tree and recursion bounded by fuel.  The
pipeline is: resolve the class members, require exactly one `__init__`
(else the schema `DeserializeException`), verify the members against the
signature, then assemble `constructor_args` and call `cls(**constructor_args)`
— for a user record class this binds each non-`self` parameter as an instance
attribute of the same name.  (For a builtin class this construction step is
unreachable: its `*args`/`**kwargs` signature makes `verify_members` fail on
every input first.) -/
def loadTJ : Nat → Annot → PyVal → Except PyErr PyVal
  | 0, _, _ => .error .fuelOut
  | Nat.succ n, typ, data =>
    let c := resolveAnnot typ
    match initFilter c with
    | [(_, Member.init ps)] =>
      match verifyMembersF (loadTJ n) ps data with
      | .error e => .error e
      | .ok _ =>
        match deserializeArgsF (loadTJ n) ps data with
        | .error e => .error e
        | .ok args => .ok (.vInst c args)
    | [(_, _)] => .error (.typeError sigMsg)
    | _ => .error (.deserialize schemaMsg Option.none)

/-- The member loop of `_serialize` (`typed_json.py` lines 122-132),
parameterized by the recursive `TypedJSON(type(member_value)).dumps` call:
skip dunder names and raw `property` descriptors, copy primitive values, and
recursively serialize everything else.  (The `hasattr` guard of line 127 is
always true for a name just enumerated by `getmembers`.) -/
def serializeMembersF (serFn : PyVal → Option PyVal) :
    List (String × PyVal) → Option (List (String × PyVal))
  | [] => some []
  | (nm, mv) :: rest =>
    if dunderChk nm then serializeMembersF serFn rest
    else if isPropObjV mv then serializeMembersF serFn rest
    else if isPrimVal mv then
      (serializeMembersF serFn rest).map fun r => (nm, mv) :: r
    else
      match serFn mv with
      | Option.none => Option.none
      | some j => (serializeMembersF serFn rest).map fun r => (nm, j) :: r

/-- `TypedJSON(typ).dumps(obj)` = `_serialize(obj)` (`typed_json.py` lines
100-133), with the emitted JSON text given by its parse tree and recursion
bounded by fuel.  Note that `dumps` never consults `typ` and performs no
initializer lookup: serialization is driven purely by `getmembers(obj)`. -/
def serializeTJ : Nat → PyVal → Option PyVal
  | 0, _ => Option.none
  | Nat.succ n, obj =>
    (serializeMembersF (serializeTJ n) (getmembersV obj)).map .vDict

/-! ## Concrete example classes used by the claims -/

/-- The `self` parameter as `inspect` reports it on a user `__init__`. -/
def selfParam : Param := .mk ("self") .aEmpty Option.none

/-- `class Inner:  def __init__(self, id: int)` -/
def innerCls : ClassDef :=
  .mk ("Inner") [("__init__", .init [selfParam, .mk ("id") .aInt Option.none])]

/-- `class Outer:  def __init__(self, inner: Inner)` -/
def outerCls : ClassDef :=
  .mk ("Outer") [("__init__", .init [selfParam, .mk ("inner") (.aCls innerCls) Option.none])]

/-- `class Person:  def __init__(self, name: str)` -/
def nameCls : ClassDef :=
  .mk ("Person") [("__init__", .init [selfParam, .mk ("name") .aStr Option.none])]

/-- `class Counter:  def __init__(self, count: int = 0)` -/
def countCls : ClassDef :=
  .mk ("Counter") [("__init__", .init [selfParam, .mk ("count") .aInt (some (.vInt 0))])]

/-- A class whose member table exposes no `__init__` at all (zero eligible
initializers in the sense of `_fetch_initializer_members`). -/
def zeroInitCls : ClassDef := .mk ("NoInit") []

/-- A class with a single-field `__init__` and an ordinary method `greet`. -/
def methCls : ClassDef :=
  .mk ("Greeter")
    [("__init__", .init [selfParam, .mk ("word") .aStr Option.none]),
     ("greet", .meth)]

/-- `class Priv:  def __init__(self, __x: int)` — a record class whose only
field has a dunder name. -/
def privCls : ClassDef :=
  .mk ("Priv") [("__init__", .init [selfParam, .mk ("__x") .aInt Option.none])]

/-- A single-field record class over an arbitrary field name and annotation. -/
def simpleCls (cn fn : String) (a : Annot) : ClassDef :=
  .mk cn [("__init__", .init [selfParam, .mk fn a Option.none])]

/-! ## Observers on exceptions -/

/-- The message carried by an exception (`str(exc)`). -/
def msgOf : PyErr → String
  | .deserialize m _ => m
  | .typeError m => m
  | .fuelOut => ""

/-- Erase all message text from an exception, keeping every part of it that a
caller could inspect programmatically: the exception class and the shape of
the `__cause__` chain. -/
def eraseMsg : PyErr → PyErr
  | .deserialize _ (some e) => .deserialize ("") (some (eraseMsg e))
  | .deserialize _ Option.none => .deserialize ("") Option.none
  | .typeError _ => .typeError ("")
  | .fuelOut => .fuelOut

/-- The innermost exception of a `__cause__` chain. -/
def chainBottom : PyErr → PyErr
  | .deserialize _ (some e) => chainBottom e
  | e => e

/-- The Python class of an exception (`type(exc).__name__`). -/
def excKind : PyErr → String
  | .deserialize _ _ => "DeserializeException"
  | .typeError _ => "TypeError"
  | .fuelOut => "FuelOut"

/-! ## Well-typed record instances (the types quantified over by the
round-trip property)

`WTInst c x` says: `x` is an instance of `c`; `c` exposes exactly one
`__init__` whose non-`self` parameter names are distinct (as `inspect`
guarantees for a real signature); `x`'s instance attributes are exactly the
non-`self` constructor parameters, bound in declaration order — the record
pattern `self.<param> = <param>` that `cls(**constructor_args)` produces —
and each attribute value is well typed at its parameter's declared
annotation: primitives hold primitive values, `list` fields hold lists of
scalar primitives, and nested class fields hold well-typed instances. -/

/-- Scalar primitive values (elements allowed in a "list of primitives"). -/
def scalarPrim : PyVal → Bool
  | .vInt _ => true
  | .vBool _ => true
  | .vStr _ => true
  | _ => false

/-- Names of the non-`self` parameters, in order. -/
def nonselfNames (ps : List Param) : List String :=
  (ps.filter fun p => !(p.pname == "self")).map Param.pname

mutual

/-- A value is well typed at a declared annotation. -/
inductive WTVal : Annot → PyVal → Prop where
  | wtInt (n : Int) : WTVal .aInt (.vInt n)
  | wtBool (b : Bool) : WTVal .aBool (.vBool b)
  | wtStr (s : String) : WTVal .aStr (.vStr s)
  | wtList (xs : List PyVal) : (∀ x ∈ xs, scalarPrim x = true) → WTVal .aList (.vList xs)
  | wtCls (c : ClassDef) (v : PyVal) : WTInst c v → WTVal (.aCls c) v

/-- A well-typed record instance of a class. -/
inductive WTInst : ClassDef → PyVal → Prop where
  | mk (c : ClassDef) (nm0 : String) (ps : List Param) (attrs : List (String × PyVal)) :
      initFilter c = [(nm0, .init ps)] →
      (nonselfNames ps).Nodup →
      WTParams ps attrs →
      WTInst c (.vInst c attrs)

/-- Attribute dictionary built from a parameter list: `self`-named parameters
are skipped, every other parameter contributes its own attribute. -/
inductive WTParams : List Param → List (String × PyVal) → Prop where
  | nil : WTParams [] []
  | self (a : Annot) (d : Option PyVal) (ps : List Param) (attrs : List (String × PyVal)) :
      WTParams ps attrs → WTParams (.mk ("self") a d :: ps) attrs
  | fld (p : Param) (v : PyVal) (ps : List Param) (attrs : List (String × PyVal)) :
      p.pname ≠ "self" → WTVal p.ann v → WTParams ps attrs →
      WTParams (p :: ps) ((p.pname, v) :: attrs)

end

/-! ## Public (non-dunder) constructor signatures -/

mutual

/-- Every class reachable from the annotation has a public signature. -/
def pubAnn : Annot → Bool
  | .aCls c => pubCls c
  | _ => true

/-- Every `__init__` member of the class has only public parameters. -/
def pubCls : ClassDef → Bool
  | .mk _ ms => pubMembers ms

/-- `pubCls`, over a member table. -/
def pubMembers : List (String × Member) → Bool
  | [] => true
  | (_, m) :: rest => pubMember m && pubMembers rest

/-- `pubCls`, for one member. -/
def pubMember : Member → Bool
  | .init ps => pubParams ps
  | _ => true

/-- `pubCls`, over a parameter list. -/
def pubParams : List Param → Bool
  | [] => true
  | p :: rest => pubParam p && pubParams rest

/-- A parameter is `self` or has a public (non-dunder) name, and its
annotation is recursively public. -/
def pubParam : Param → Bool
  | .mk nm a _ => (nm == "self" || !(dunderChk nm)) && pubAnn a

end

/-- Relation between a member value and the JSON value the serializer emits
for it: primitive values are copied, everything else goes through the
recursive `dumps` call `f`. -/
def SerRel (f : PyVal → Option PyVal) (v jv : PyVal) : Prop :=
  (isPrimVal v = true ∧ jv = v) ∨ (isPrimVal v = false ∧ f v = some jv)

/-- Whether an optional attribute value is a raw `property` descriptor. -/
def isPropOpt : Option PyVal → Bool
  | some .vPropObj => true
  | _ => false

/-! ## The exception chain of the nested-mismatch example (claim C5) -/

/-- Innermost exception: introspecting `int` for the string value ends with
`*args` reported missing (its default is `inspect._empty`). -/
def e5bottom : PyErr := .deserialize (missingMsg ("args")) Option.none

/-- Middle exception: the cast error for the value of field `id`. -/
def e5mid : PyErr :=
  .deserialize (castMsg (.vStr ("not-an-int")) .aInt (missingMsg ("args"))) (some e5bottom)

/-- Outermost exception: the cast error for the value of field `inner`. -/
def e5top : PyErr :=
  .deserialize
    (castMsg (.vDict [("id", .vStr ("not-an-int"))]) (.aCls innerCls)
      (castMsg (.vStr ("not-an-int")) .aInt (missingMsg ("args"))))
    (some e5mid)

/-! ## Claim theorems (concrete claims) -/

/-- C3 (code bug): when a primitive JSON value appears where a nested record
object is expected — here `Outer(inner: Inner)` loaded from
`{"inner": 5}` — the failure `load` raises is a host `TypeError` from the
membership test `"id" in 5`, not a `DeserializeException`, contradicting the
claim (and the source's own docstring, which promises `DeserializeException`
for issues during deserialization). -/
theorem c3_typeerror_leak :
    loadTJ 9 (.aCls outerCls) (.vDict [("inner", .vInt 5)]) =
      .error (.typeError ("argument of type \x27int\x27 is not iterable")) ∧
    excKind (.typeError ("argument of type \x27int\x27 is not iterable")) ≠
      "DeserializeException" := by
  exact ⟨rfl, by decide⟩

/-- C5 counterexample: loading `{"inner": {"id": "not-an-int"}}` into
`Outer(inner: Inner)` raises `e5top`, whose cause chain bottoms out not at a
mismatch for field `id` but at a missing-parameter error for `args` (an
artifact of introspecting the builtin `int` initializer); the bottom message
does not mention `id`, and no message in the chain mentions the field name
`inner`, so the path to the failing leaf field cannot be reconstructed from
the chained causes. -/
theorem c5_counter :
    loadTJ 9 (.aCls outerCls) (.vDict [("inner", .vDict [("id", .vStr ("not-an-int"))])]) =
      .error e5top ∧
    chainBottom e5top = e5bottom ∧
    hasSubstr ("id") (msgOf e5bottom) = false ∧
    hasSubstr ("inner") (msgOf e5top) = false ∧
    hasSubstr ("inner") (msgOf e5mid) = false := by
  exact ⟨rfl, rfl, rfl, rfl, rfl⟩

/-- C5 amended: loading `{"inner": {"id": "not-an-int"}}` into
`Outer(inner: Inner)` fails with a `DeserializeException` whose `__cause__`
chain is preserved by `raise ... from`; the middle cast error names the
expected type `int` for the offending value, but no exception in the chain
carries the field names `inner` or `id` (field names appear only inside the
printed offending values), and the chain bottoms out at a missing-`args`
error from introspecting the builtin `int` initializer. -/
theorem c5_amended :
    loadTJ 9 (.aCls outerCls) (.vDict [("inner", .vDict [("id", .vStr ("not-an-int"))])]) =
      .error e5top ∧
    hasSubstr ("<class \x27int\x27>") (msgOf e5mid) = true := by
  exact ⟨rfl, rfl⟩

/-- C2 counterexample: the schema failure (type with zero `__init__` members)
and the data failure (required field absent) are both plain
`DeserializeException`s with no cause; erasing message text makes the two
exception values identical, so no programmatic (message-independent)
classification can tell the schema kind from the data kind — only their
message texts differ. -/
theorem c2_counter :
    loadTJ 5 (.aCls zeroInitCls) (.vDict []) =
      .error (.deserialize schemaMsg Option.none) ∧
    loadTJ 5 (.aCls nameCls) (.vDict []) =
      .error (.deserialize (missingMsg ("name")) Option.none) ∧
    eraseMsg (.deserialize schemaMsg Option.none) =
      eraseMsg (.deserialize (missingMsg ("name")) Option.none) ∧
    schemaMsg ≠ missingMsg ("name") := by
  exact ⟨rfl, rfl, rfl, by decide⟩

/-- C2 amended: every failure `load` raises for a schema issue or a data
issue is delivered as the same exception class `DeserializeException`,
carrying only a message (and an optional cause); the schema-error kind is
distinguishable from the data-error kinds only by message text. -/
theorem c2_amended :
    loadTJ 5 (.aCls zeroInitCls) (.vDict []) =
      .error (.deserialize schemaMsg Option.none) ∧
    loadTJ 5 (.aCls nameCls) (.vDict []) =
      .error (.deserialize (missingMsg ("name")) Option.none) ∧
    excKind (.deserialize schemaMsg Option.none) = "DeserializeException" ∧
    excKind (.deserialize (missingMsg ("name")) Option.none) = "DeserializeException" ∧
    msgOf (.deserialize schemaMsg Option.none) ≠
      msgOf (.deserialize (missingMsg ("name")) Option.none) := by
  exact ⟨rfl, rfl, rfl, rfl, by decide⟩

/-- C4 counterexample: for the type `zeroInitCls`, which exposes zero
`__init__` members, `load` does fail with the schema error — but `dumps`
does not fail at all: it never resolves the initializer and happily
serializes an instance, contradicting the claim that both operations fail. -/
theorem c4_counter :
    loadTJ 5 (.aCls zeroInitCls) (.vDict [("x", .vInt 1)]) =
      .error (.deserialize schemaMsg Option.none) ∧
    serializeTJ 5 (.vInst zeroInitCls [("x", .vInt 1)]) =
      some (.vDict [("x", .vInt 1)]) := by
  exact ⟨rfl, rfl⟩

/-- C4 amended: for every type whose member table does not expose exactly one
`__init__`, `load` fails with the schema `DeserializeException` uniformly in
the JSON data — the same error for every input, so no data is inspected
first — while `dumps` performs no initializer check and succeeds on an
instance of such a type. -/
theorem c4_amended (c : ClassDef) (n : Nat) (data : PyVal)
    (h : (initFilter c).length ≠ 1) :
    loadTJ (n + 1) (.aCls c) data = .error (.deserialize schemaMsg Option.none) ∧
    serializeTJ 5 (.vInst zeroInitCls [("x", .vInt 1)]) =
      some (.vDict [("x", .vInt 1)]) := by
  refine ⟨?_, rfl⟩
  rcases hf : initFilter c with _ | ⟨x, t⟩
  · simp [loadTJ, resolveAnnot, hf]
  · rcases t with _ | ⟨y, t2⟩
    · exact absurd (by simp [hf] ) h
    · rcases x with ⟨nm, m⟩
      cases m <;> simp [loadTJ, resolveAnnot, hf]

/-- Witness for C4 amended at the concrete zero-initializer type. -/
theorem c4_amended_witness :
    loadTJ 5 (.aCls zeroInitCls) (.vDict [("a", .vInt 1)]) =
      .error (.deserialize schemaMsg Option.none) ∧
    serializeTJ 5 (.vInst zeroInitCls [("x", .vInt 1)]) =
      some (.vDict [("x", .vInt 1)]) :=
  c4_amended zeroInitCls 4 (.vDict [("a", .vInt 1)]) (by decide)

/-- C6 counterexample: serializing an instance of a class with an ordinary
method `greet` emits the key `greet` (bound to the method's serialization,
an empty object) next to the data attribute `word` — so the emitted keys are
not only the non-callable data attributes. -/
theorem c6_counter :
    serializeTJ 5 (.vInst methCls [("word", .vStr ("hi"))]) =
      some (.vDict [("greet", .vDict []), ("word", .vStr ("hi"))]) ∧
    memberGet methCls.members ("greet") = some .meth := by
  exact ⟨rfl, rfl⟩

/-- C1 counterexample: `privCls` declares a single field `__x: int` — all
declared field types primitive, so the claim covers it — yet the round trip
fails: serialization skips the dunder-named attribute, so the serialized form
is `{}` and reloading fails with a missing-field error instead of
reproducing the instance. -/
theorem c1_counter :
    WTInst privCls (.vInst privCls [("__x", .vInt 5)]) ∧
    serializeTJ 100 (.vInst privCls [("__x", .vInt 5)]) = some (.vDict []) ∧
    loadTJ 100 (.aCls privCls) (.vDict []) =
      .error (.deserialize (missingMsg ("__x")) Option.none) := by
  refine ⟨?_, rfl, rfl⟩
  refine WTInst.mk privCls ("__init__") [selfParam, .mk ("__x") .aInt Option.none]
    [("__x", .vInt 5)] rfl (by decide) ?_
  exact WTParams.self _ _ _ _
    (WTParams.fld (.mk ("__x") .aInt Option.none) (.vInt 5) [] [] (by decide)
      (WTVal.wtInt 5) WTParams.nil)

/-! ## Missing-field and default-fallback lemmas -/

/-- Verifying against the empty JSON object skips every `self`-named or
defaulted parameter and stops with the missing-parameter error at the first
required one. -/
theorem verify_skip_empty (f : Annot → PyVal → Except PyErr PyVal)
    (nm : String) (hnm : nm ≠ "self") (ps1 ps2 : List Param) (a : Annot)
    (hpre : ∀ p ∈ ps1, p.pname = "self" ∨ (p.dflt).isSome) :
    verifyMembersF f (ps1 ++ (.mk nm a Option.none) :: ps2) (.vDict []) =
      .error (.deserialize (missingMsg nm) Option.none) := by
  induction ps1 with
  | nil =>
    simp [verifyMembersF, Param.pname, Param.dflt, pyContains, dictGet, hnm]
  | cons p t ih =>
    have ht : ∀ q ∈ t, q.pname = "self" ∨ (q.dflt).isSome := by
      intro q hq
      exact hpre q (List.mem_cons_of_mem _ hq)
    rcases hpre p (List.mem_cons_self _ _) with hs | hd
    · simpa [verifyMembersF, hs] using ih ht
    · rcases Option.isSome_iff_exists.mp hd with ⟨d, hdd⟩
      by_cases hps : p.pname = "self"
      · simpa [verifyMembersF, hps] using ih ht
      · simpa [verifyMembersF, hps, pyContains, dictGet, hdd] using ih ht

/-- C7: for a type whose single `__init__` declares a field `name : str`
without default, preceded only by `self` or defaulted parameters, loading
the JSON text `{}` fails with the missing-parameter `DeserializeException`,
and its message names the absent field `name`. -/
theorem c7_missing_field (c : ClassDef) (nm0 : String) (ps1 ps2 : List Param) (n : Nat)
    (hf : initFilter c = [(nm0, .init (ps1 ++ (.mk ("name") .aStr Option.none) :: ps2))])
    (hpre : ∀ p ∈ ps1, p.pname = "self" ∨ (p.dflt).isSome) :
    loadTJ (n + 1) (.aCls c) (.vDict []) =
      .error (.deserialize (missingMsg ("name")) Option.none) ∧
    hasSubstr ("name") (missingMsg ("name")) = true := by
  refine ⟨?_, rfl⟩
  have hv := verify_skip_empty (loadTJ n) ("name") (by decide) ps1 ps2 .aStr hpre
  simp [loadTJ, resolveAnnot, hf, hv]

/-- Witness for C7 at the concrete single-field type `Person(name: str)`. -/
theorem c7_missing_field_witness :
    loadTJ 5 (.aCls nameCls) (.vDict []) =
      .error (.deserialize (missingMsg ("name")) Option.none) ∧
    hasSubstr ("name") (missingMsg ("name")) = true :=
  c7_missing_field nameCls ("__init__") [selfParam] [] 4 rfl
    (by
      intro p hp
      rw [List.mem_singleton] at hp
      subst hp
      exact Or.inl rfl)

/-- Inversion for the argument-assembly loop: a successful run on `q :: t`
contains a successful run on `t`, whose entries all survive into the final
argument list. -/
theorem desArgs_cons_ok (f : Annot → PyVal → Except PyErr PyVal) (q : Param)
    (t : List Param) (data : PyVal) (args : List (String × PyVal))
    (h : deserializeArgsF f (q :: t) data = .ok args) :
    ∃ rest, deserializeArgsF f t data = .ok rest ∧ ∀ x ∈ rest, x ∈ args := by
  by_cases hqs : q.pname = "self"
  · refine ⟨args, ?_, fun x hx => hx⟩
    simpa [deserializeArgsF, hqs] using h
  · simp only [deserializeArgsF] at h
    rw [if_neg hqs] at h
    rcases hc : pyContains data q.pname with e | b <;> rw [hc] at h <;> (try dsimp only at h)
    · exact absurd h (by simp)
    · cases b <;> (try dsimp only at h)
      · rcases hd : q.dflt with _ | d <;> rw [hd] at h <;> (try dsimp only at h)
        · exact absurd h (by simp)
        · rcases hr : deserializeArgsF f t data with e | rest <;> rw [hr] at h <;>
            (try dsimp only at h)
          · exact absurd h (by simp)
          · refine ⟨rest, rfl, fun x hx => ?_⟩
            simp only [Except.ok.injEq] at h
            rw [← h]
            exact List.mem_cons_of_mem _ hx
      · rcases hg : pyGetItem data q.pname with e | v <;> rw [hg] at h <;> (try dsimp only at h)
        · exact absurd h (by simp)
        · by_cases hprim : annInPrimTuple q.ann = true
          · rw [if_pos hprim] at h
            rcases hr : deserializeArgsF f t data with e | rest <;> rw [hr] at h <;>
              (try dsimp only at h)
            · exact absurd h (by simp)
            · refine ⟨rest, rfl, fun x hx => ?_⟩
              simp only [Except.ok.injEq] at h
              rw [← h]
              exact List.mem_cons_of_mem _ hx
          · rw [if_neg hprim] at h
            rcases hl : f q.ann v with e | nested <;> rw [hl] at h <;> (try dsimp only at h)
            · exact absurd h (by simp)
            · rcases hr : deserializeArgsF f t data with e | rest <;> rw [hr] at h <;>
                (try dsimp only at h)
              · exact absurd h (by simp)
              · refine ⟨rest, rfl, fun x hx => ?_⟩
                simp only [Except.ok.injEq] at h
                rw [← h]
                exact List.mem_cons_of_mem _ hx

/-- A parameter absent from the data and carrying a default contributes
exactly that default to the assembled constructor arguments. -/
theorem desArgs_default_mem (f : Annot → PyVal → Except PyErr PyVal)
    (ps : List Param) (data : PyVal) (args : List (String × PyVal))
    (p : Param) (d0 : PyVal)
    (h : deserializeArgsF f ps data = .ok args) (hp : p ∈ ps)
    (hself : p.pname ≠ "self")
    (habs : pyContains data p.pname = .ok false) (hd : p.dflt = some d0) :
    (p.pname, d0) ∈ args := by
  induction ps generalizing args with
  | nil => cases hp
  | cons q t ih =>
    rcases List.mem_cons.mp hp with rfl | hp'
    · simp only [deserializeArgsF] at h
      rw [if_neg hself, habs] at h
      dsimp only at h
      rw [hd] at h
      dsimp only at h
      rcases hr : deserializeArgsF f t data with e | rest <;> rw [hr] at h <;> (try dsimp only at h)
      · exact absurd h (by simp)
      · simp only [Except.ok.injEq] at h
        rw [← h]
        exact List.mem_cons_self _ _
    · obtain ⟨rest, hrest, hsub⟩ := desArgs_cons_ok f q t data args h
      exact hsub _ (ih rest hrest hp')

/-- C8: whenever `load` succeeds, every constructor parameter that is absent
from the JSON object and carries a default is bound to exactly that declared
default in the constructed instance's attributes. -/
theorem c8_default_fill (n : Nat) (c : ClassDef) (nm0 : String) (ps : List Param)
    (data : PyVal) (args : List (String × PyVal)) (p : Param) (d0 : PyVal)
    (hf : initFilter c = [(nm0, .init ps)])
    (hload : loadTJ (n + 1) (.aCls c) data = .ok (.vInst c args))
    (hp : p ∈ ps) (hself : p.pname ≠ "self")
    (habs : pyContains data p.pname = .ok false)
    (hd : p.dflt = some d0) :
    (p.pname, d0) ∈ args := by
  simp only [loadTJ] at hload
  rw [show resolveAnnot (.aCls c) = c from rfl, hf] at hload
  dsimp only at hload
  rcases hv : verifyMembersF (loadTJ n) ps data with e | u <;> rw [hv] at hload <;>
    (try dsimp only at hload)
  · exact absurd hload (by simp)
  · rcases hr : deserializeArgsF (loadTJ n) ps data with e | args2 <;> rw [hr] at hload <;>
      (try dsimp only at hload)
    · exact absurd hload (by simp)
    · simp only [Except.ok.injEq, PyVal.vInst.injEq] at hload
      rw [← hload.2]
      exact desArgs_default_mem (loadTJ n) ps data args2 p d0 hr hp hself habs hd

/-- Witness for C8: `Counter(count: int = 0)` loaded from `{}` succeeds and
binds `count` to the default `0`. -/
theorem c8_default_fill_witness :
    loadTJ 5 (.aCls countCls) (.vDict []) =
      .ok (.vInst countCls [("count", .vInt 0)]) ∧
    ("count", PyVal.vInt 0) ∈ [("count", PyVal.vInt 0)] :=
  ⟨rfl,
    c8_default_fill 4 countCls ("__init__")
      [selfParam, .mk ("count") .aInt (some (.vInt 0))] (.vDict [])
      [("count", .vInt 0)] (.mk ("count") .aInt (some (.vInt 0))) (.vInt 0)
      rfl rfl (by simp) (by decide) rfl rfl⟩

/-- C9: a JSON boolean supplied for an `int`-annotated field passes the
`isinstance` check (Python's `bool` is a subclass of `int`), `load` succeeds,
and the boolean is stored unchanged in the constructed instance. -/
theorem c9_bool_int (cn fn : String) (b : Bool) (n : Nat) (hfn : fn ≠ "self") :
    isinstanceOf (.vBool b) .aInt = true ∧
    loadTJ (n + 1) (.aCls (simpleCls cn fn .aInt)) (.vDict [(fn, .vBool b)]) =
      .ok (.vInst (simpleCls cn fn .aInt) [(fn, .vBool b)]) := by
  refine ⟨rfl, ?_⟩
  have hfil : initFilter (simpleCls cn fn .aInt) =
      [("__init__", Member.init [selfParam, .mk fn .aInt Option.none])] := rfl
  have hver : verifyMembersF (loadTJ n) [selfParam, .mk fn .aInt Option.none]
      (.vDict [(fn, .vBool b)]) = .ok () := by
    simp [verifyMembersF, selfParam, Param.pname, Param.ann, pyContains, pyGetItem,
      dictGet, verifyMemberTypeF, isinstanceOf, hfn]
  have hdes : deserializeArgsF (loadTJ n) [selfParam, .mk fn .aInt Option.none]
      (.vDict [(fn, .vBool b)]) = .ok [(fn, .vBool b)] := by
    simp [deserializeArgsF, selfParam, Param.pname, Param.ann, pyContains, pyGetItem,
      dictGet, annInPrimTuple, hfn]
  simp only [loadTJ]
  rw [show resolveAnnot (.aCls (simpleCls cn fn .aInt)) = simpleCls cn fn .aInt from rfl,
    hfil]
  dsimp only
  rw [hver]
  dsimp only
  rw [hdes]

/-- Witness for C9 at a concrete class and field. -/
theorem c9_bool_int_witness :
    isinstanceOf (.vBool true) .aInt = true ∧
    loadTJ 5 (.aCls (simpleCls ("Flag") ("flag") .aInt))
        (.vDict [("flag", .vBool true)]) =
      .ok (.vInst (simpleCls ("Flag") ("flag") .aInt) [("flag", .vBool true)]) :=
  c9_bool_int ("Flag") ("flag") true 4 (by decide)

/-! ## Extra JSON keys are never consulted (claim C10) -/

/-- Filtering an attribute list by a predicate that holds for every binding
of key `k` does not change the lookup of `k`. -/
theorem dictGet_filter (pred : String × PyVal → Bool) (l : List (String × PyVal))
    (k : String) (hk : ∀ v, pred (k, v) = true) :
    dictGet (l.filter pred) k = dictGet l k := by
  induction l with
  | nil => rfl
  | cons e t ih =>
    rcases e with ⟨k1, v1⟩
    by_cases hk1 : k1 = k
    · subst hk1
      rw [List.filter_cons, hk v1]
      simp [dictGet]
    · rw [List.filter_cons]
      by_cases hp : pred (k1, v1) = true
      · simp [hp, dictGet, hk1, ih]
      · simp [hp, dictGet, hk1, ih]

/-- Signature verification only looks up parameter names: dict entries whose
keys are kept by the filter for every parameter name do not change the
outcome. -/
theorem verify_filter_eq (f : Annot → PyVal → Except PyErr PyVal)
    (ps : List Param) (l : List (String × PyVal)) (pred : String × PyVal → Bool)
    (hps : ∀ p ∈ ps, ∀ v, pred (p.pname, v) = true) :
    verifyMembersF f ps (.vDict (l.filter pred)) = verifyMembersF f ps (.vDict l) := by
  induction ps with
  | nil => rfl
  | cons p t ih =>
    have hdg : dictGet (l.filter pred) p.pname = dictGet l p.pname :=
      dictGet_filter pred l p.pname (hps p (List.mem_cons_self _ _))
    have ih2 := ih fun q hq => hps q (List.mem_cons_of_mem _ hq)
    by_cases hs : p.pname = "self"
    · simp only [verifyMembersF, if_pos hs]
      exact ih2
    · have hceq : pyContains (.vDict (l.filter pred)) p.pname =
          pyContains (.vDict l) p.pname := by
        simp [pyContains, hdg]
      have hgeq : pyGetItem (.vDict (l.filter pred)) p.pname =
          pyGetItem (.vDict l) p.pname := by
        simp [pyGetItem, hdg]
      simp only [verifyMembersF, if_neg hs, hceq, hgeq]
      cases hpc : pyContains (.vDict l) p.pname with
      | error e => rfl
      | ok b =>
        cases b
        · dsimp only
          cases p.dflt <;> simp [ih2]
        · dsimp only
          cases hpg : pyGetItem (.vDict l) p.pname with
          | error e => rfl
          | ok v =>
            dsimp only
            cases verifyMemberTypeF f p v <;> simp [ih2]

/-- Same statement for the argument-assembly loop of `_deserialize`. -/
theorem desArgs_filter_eq (f : Annot → PyVal → Except PyErr PyVal)
    (ps : List Param) (l : List (String × PyVal)) (pred : String × PyVal → Bool)
    (hps : ∀ p ∈ ps, ∀ v, pred (p.pname, v) = true) :
    deserializeArgsF f ps (.vDict (l.filter pred)) =
      deserializeArgsF f ps (.vDict l) := by
  induction ps with
  | nil => rfl
  | cons p t ih =>
    have hdg : dictGet (l.filter pred) p.pname = dictGet l p.pname :=
      dictGet_filter pred l p.pname (hps p (List.mem_cons_self _ _))
    have ih2 := ih fun q hq => hps q (List.mem_cons_of_mem _ hq)
    by_cases hs : p.pname = "self"
    · simp only [deserializeArgsF, if_pos hs]
      exact ih2
    · have hceq : pyContains (.vDict (l.filter pred)) p.pname =
          pyContains (.vDict l) p.pname := by
        simp [pyContains, hdg]
      have hgeq : pyGetItem (.vDict (l.filter pred)) p.pname =
          pyGetItem (.vDict l) p.pname := by
        simp [pyGetItem, hdg]
      simp only [deserializeArgsF, if_neg hs, hceq, hgeq]
      cases hpc : pyContains (.vDict l) p.pname with
      | error e => rfl
      | ok b =>
        cases b
        · dsimp only
          cases p.dflt <;> simp [ih2]
        · dsimp only
          cases hpg : pyGetItem (.vDict l) p.pname with
          | error e => rfl
          | ok v =>
            dsimp only
            by_cases hprim : annInPrimTuple p.ann = true
            · rw [if_pos hprim, if_pos hprim, ih2]
            · rw [if_neg hprim, if_neg hprim, ih2]

/-- C10: JSON object keys that do not match a constructor parameter name are
silently ignored by validation and construction alike — `load` returns
exactly the same result (success or failure) as on the object with those
keys removed. -/
theorem c10_extra_keys (n : Nat) (typ : Annot) (l : List (String × PyVal)) :
    loadTJ n typ (.vDict l) =
      loadTJ n typ (.vDict (l.filter fun kv => decide (kv.1 ∈ initParamNames typ))) := by
  cases n with
  | zero => rfl
  | succ m =>
    simp only [loadTJ]
    cases hf : initFilter (resolveAnnot typ) with
    | nil => rfl
    | cons x t =>
      cases t with
      | cons y t2 =>
        rcases x with ⟨nm1, m1⟩
        rcases y with ⟨nm2, m2⟩
        cases m1 <;> rfl
      | nil =>
        rcases x with ⟨nm, mem⟩
        cases mem with
        | meth => rfl
        | attr v => rfl
        | prop v => rfl
        | init ps =>
          have hnames : initParamNames typ = ps.map Param.pname := by
            unfold initParamNames
            rw [hf]
          have hps : ∀ p ∈ ps, ∀ v,
              (fun kv : String × PyVal => decide (kv.1 ∈ initParamNames typ))
                (p.pname, v) = true := by
            intro p hp v
            simp only [decide_eq_true_eq, hnames]
            exact List.mem_map_of_mem _ hp
          dsimp only
          rw [verify_filter_eq (loadTJ m) ps l
              (fun kv => decide (kv.1 ∈ initParamNames typ)) hps,
            desArgs_filter_eq (loadTJ m) ps l
              (fun kv => decide (kv.1 ∈ initParamNames typ)) hps]

/-! ## Size bounds (fuel sufficiency) -/

/-- Every Python value has positive size. -/
theorem pyval_pos (v : PyVal) : 0 < sizeOf v := by
  cases v <;> simp

/-- A value looked up in an attribute dictionary is smaller than the
dictionary. -/
theorem dictGet_size (l : List (String × PyVal)) (k : String) (v : PyVal)
    (h : dictGet l k = some v) : sizeOf v < sizeOf l := by
  induction l with
  | nil => simp [dictGet] at h
  | cons e t ih =>
    rcases e with ⟨k1, v1⟩
    simp only [dictGet] at h
    by_cases hk : k1 = k
    · rw [if_pos hk] at h
      injection h with h
      subst h
      simp
      omega
    · rw [if_neg hk] at h
      have := ih h
      simp
      omega

/-- A member found in a member table is smaller than the table, together
with its key. -/
theorem memberGet_size (ms : List (String × Member)) (k : String) (m : Member)
    (h : memberGet ms k = some m) : 1 + sizeOf k + sizeOf m < sizeOf ms := by
  induction ms with
  | nil => simp [memberGet] at h
  | cons e t ih =>
    rcases e with ⟨k1, m1⟩
    simp only [memberGet] at h
    by_cases hk : k1 = k
    · rw [if_pos hk] at h
      injection h with h
      subst h
      subst hk
      simp
      omega
    · rw [if_neg hk] at h
      have := ih h
      simp
      omega

/-- Size of the value `getattr` produces for a class member. -/
theorem memberValue_size (nm : String) (m : Member) :
    sizeOf (memberValue nm m) ≤ 1 + sizeOf nm + sizeOf m := by
  cases m <;> simp [memberValue] <;> omega

/-- Instance attribute access always yields a value smaller than the
instance. -/
theorem getattrI_size (c : ClassDef) (attrs : List (String × PyVal)) (nm : String)
    (v : PyVal) (h : getattrI c attrs nm = some v) :
    sizeOf v < sizeOf (PyVal.vInst c attrs) := by
  unfold getattrI at h
  cases hd : dictGet attrs nm with
  | some w =>
    rw [hd] at h
    injection h with h
    subst h
    have := dictGet_size attrs nm w hd
    simp
    omega
  | none =>
    rw [hd] at h
    cases hm : memberGet c.members nm with
    | none => rw [hm] at h; cases h
    | some mem =>
      rw [hm] at h
      injection h with h
      subst h
      have h1 := memberGet_size c.members nm mem hm
      have h2 := memberValue_size nm mem
      rcases c with ⟨cn, ms⟩
      simp only [ClassDef.members] at h1
      simp
      omega

/-- Every value enumerated by `getmembers` is smaller than the object. -/
theorem getmembersV_size (x : PyVal) (nm : String) (v : PyVal)
    (h : (nm, v) ∈ getmembersV x) : sizeOf v < sizeOf x := by
  cases x <;> simp only [getmembersV] at h <;> try cases h
  next c attrs =>
    rw [List.mem_filterMap] at h
    rcases h with ⟨name, _, heq⟩
    cases hg : getattrI c attrs name with
    | none => rw [hg] at heq; cases heq
    | some w =>
      rw [hg] at heq
      injection heq with heq
      injection heq with h1 h2
      rw [← h2]
      rw [h1] at hg
      exact getattrI_size c attrs nm w hg

/-- The serializer's member loop succeeds when the recursive call succeeds on
every member value. -/
theorem serMembers_total (f : PyVal → Option PyVal) (l : List (String × PyVal))
    (hf : ∀ e ∈ l, (f e.2).isSome = true) :
    (serializeMembersF f l).isSome = true := by
  induction l with
  | nil => rfl
  | cons e t ih =>
    rcases e with ⟨nm, mv⟩
    have ih2 := ih fun q hq => hf q (List.mem_cons_of_mem _ hq)
    simp only [serializeMembersF]
    by_cases h1 : dunderChk nm = true
    · rw [if_pos h1]; exact ih2
    · rw [if_neg h1]
      by_cases h2 : isPropObjV mv = true
      · rw [if_pos h2]; exact ih2
      · rw [if_neg h2]
        by_cases h3 : isPrimVal mv = true
        · rw [if_pos h3]
          cases hr : serializeMembersF f t with
          | none => rw [hr] at ih2; cases ih2
          | some r => rfl
        · rw [if_neg h3]
          cases hfv : f mv with
          | none =>
            have := hf (nm, mv) (List.mem_cons_self _ _)
            rw [hfv] at this
            cases this
          | some j =>
            cases hr : serializeMembersF f t with
            | none => rw [hr] at ih2; cases ih2
            | some r => rfl

/-- With fuel at least the size of the value, `dumps` always succeeds. -/
theorem serializeTotal : ∀ (k : Nat) (v : PyVal), sizeOf v ≤ k →
    (serializeTJ k v).isSome = true := by
  intro k
  induction k with
  | zero =>
    intro v hv
    have := pyval_pos v
    omega
  | succ m ih =>
    intro v hv
    simp only [serializeTJ]
    have hs : (serializeMembersF (serializeTJ m) (getmembersV v)).isSome = true := by
      apply serMembers_total
      intro e he
      rcases e with ⟨nm, w⟩
      have hlt := getmembersV_size v nm w he
      exact ih w (by omega)
    cases hr : serializeMembersF (serializeTJ m) (getmembersV v) with
    | none => rw [hr] at hs; cases hs
    | some r => rfl

/-- The serializer always emits a JSON object. -/
theorem serializeTJ_shape (m : Nat) (v j : PyVal) (h : serializeTJ m v = some j) :
    ∃ dl, j = .vDict dl := by
  cases m with
  | zero => cases h
  | succ k =>
    simp only [serializeTJ] at h
    cases hr : serializeMembersF (serializeTJ k) (getmembersV v) with
    | none => rw [hr] at h; cases h
    | some dl =>
      rw [hr] at h
      injection h with h
      exact ⟨dl, h.symm⟩

/-! ## Name enumeration and lookup lemmas -/

/-- Membership through sorted insertion. -/
theorem mem_insStr (a s : String) (l : List String) :
    a ∈ insStr s l ↔ a = s ∨ a ∈ l := by
  induction l with
  | nil => simp [insStr]
  | cons t ts ih =>
    simp only [insStr]
    by_cases hc : charsLe s.toList t.toList = true
    · rw [if_pos hc]
      simp
    · rw [if_neg hc]
      simp only [List.mem_cons, ih]
      tauto

/-- Sorting preserves membership. -/
theorem mem_sortStr (a : String) (l : List String) :
    a ∈ sortStr l ↔ a ∈ l := by
  induction l with
  | nil => simp [sortStr]
  | cons s t ih =>
    simp [sortStr, mem_insStr, ih]

/-- Deduplication preserves membership. -/
theorem mem_dedupStr (a : String) (l : List String) :
    a ∈ dedupStr l ↔ a ∈ l := by
  induction l with
  | nil => simp [dedupStr]
  | cons s t ih =>
    simp only [dedupStr]
    by_cases hs : s ∈ dedupStr t
    · rw [if_pos hs]
      simp only [List.mem_cons, ih]
      constructor
      · exact fun h => Or.inr h
      · rintro (rfl | h)
        · exact ih.mp hs
        · exact h
    · rw [if_neg hs]
      simp [ih]

/-- Lookup success in an attribute dictionary is key membership. -/
theorem dictGet_isSome_iff (l : List (String × PyVal)) (k : String) :
    (dictGet l k).isSome = true ↔ k ∈ l.map Prod.fst := by
  induction l with
  | nil => simp [dictGet]
  | cons e t ih =>
    rcases e with ⟨k1, v1⟩
    simp only [dictGet, List.map_cons, List.mem_cons]
    by_cases hk : k1 = k
    · rw [if_pos hk]
      simp [hk.symm]
    · rw [if_neg hk]
      rw [ih]
      constructor
      · exact fun h => Or.inr h
      · rintro (rfl | h)
        · exact absurd rfl hk
        · exact h

/-- Lookup success in a member table is key membership. -/
theorem memberGet_isSome_iff (ms : List (String × Member)) (k : String) :
    (memberGet ms k).isSome = true ↔ k ∈ ms.map Prod.fst := by
  induction ms with
  | nil => simp [memberGet]
  | cons e t ih =>
    rcases e with ⟨k1, m1⟩
    simp only [memberGet, List.map_cons, List.mem_cons]
    by_cases hk : k1 = k
    · rw [if_pos hk]
      simp [hk.symm]
    · rw [if_neg hk]
      rw [ih]
      constructor
      · exact fun h => Or.inr h
      · rintro (rfl | h)
        · exact absurd rfl hk
        · exact h

/-- `getattr` succeeds on every name that `dir` enumerates. -/
theorem getattrI_isSome (c : ClassDef) (attrs : List (String × PyVal)) (nm : String)
    (h : nm ∈ memberNames c attrs) : (getattrI c attrs nm).isSome = true := by
  unfold memberNames at h
  rw [mem_sortStr, mem_dedupStr, List.mem_append] at h
  unfold getattrI
  cases hd : dictGet attrs nm with
  | some w => rfl
  | none =>
    rcases h with h | h
    · rw [← dictGet_isSome_iff] at h
      rw [hd] at h
      cases h
    · rw [← memberGet_isSome_iff] at h
      cases hm : memberGet c.members nm with
      | none => rw [hm] at h; cases h
      | some mem => rfl

/-- Lookup in an association list built from a name list by `filterMap`. -/
theorem dictGet_filterMap_names (names : List String) (g : String → Option PyVal)
    (k : String) :
    dictGet (names.filterMap fun nm => (g nm).map fun v => (nm, v)) k =
      if k ∈ names then g k else Option.none := by
  induction names with
  | nil => simp [dictGet]
  | cons nm t ih =>
    by_cases hnm : nm = k
    · subst hnm
      cases hg : g nm with
      | none =>
        rw [List.filterMap_cons]
        simp only [hg, Option.map_none']
        rw [ih]
        by_cases hk : nm ∈ t <;> simp [hk, hg]
      | some v =>
        rw [List.filterMap_cons]
        simp only [hg, Option.map_some']
        simp [dictGet, hg]
    · cases hg : g nm with
      | none =>
        rw [List.filterMap_cons]
        simp only [hg, Option.map_none']
        rw [ih]
        by_cases hk : k ∈ t <;> simp [hk, Ne.symm hnm]
      | some v =>
        rw [List.filterMap_cons]
        simp only [hg, Option.map_some']
        simp only [dictGet, if_neg hnm]
        rw [ih]
        by_cases hk : k ∈ t <;> simp [hk, Ne.symm hnm]

/-- What the serializer's member loop emits for a looked-up member: primitive
values are copied verbatim, anything else is replaced by the result of the
recursive `dumps` call. -/
theorem serMembers_lookup (f : PyVal → Option PyVal) (l : List (String × PyVal))
    (d : List (String × PyVal)) (k : String) (w : PyVal)
    (h : serializeMembersF f l = some d) (hw : dictGet l k = some w)
    (hdun : dunderChk k = false) (hprop : isPropObjV w = false) :
    (isPrimVal w = true → dictGet d k = some w) ∧
    (∀ j, f w = some j → isPrimVal w = false → dictGet d k = some j) := by
  induction l generalizing d with
  | nil => simp [dictGet] at hw
  | cons e t ih =>
    rcases e with ⟨nm, mv⟩
    simp only [serializeMembersF] at h
    simp only [dictGet] at hw
    by_cases hk : nm = k
    · rw [if_pos hk] at hw
      injection hw with hw
      subst hw
      subst hk
      rw [if_neg (by rw [hdun] ; exact Bool.false_ne_true)] at h
      rw [if_neg (by rw [hprop] ; exact Bool.false_ne_true)] at h
      by_cases hpr : isPrimVal mv = true
      · rw [if_pos hpr] at h
        cases hr : serializeMembersF f t with
        | none => rw [hr] at h; cases h
        | some d2 =>
          rw [hr] at h
          simp only [Option.map_some', Option.some.injEq] at h
          subst h
          refine ⟨fun _ => ?_,
            fun j hj hnpr => absurd hpr (by rw [hnpr] ; exact Bool.false_ne_true)⟩
          simp [dictGet]
      · rw [if_neg hpr] at h
        cases hfv : f mv with
        | none => rw [hfv] at h; cases h
        | some j0 =>
          rw [hfv] at h
          cases hr : serializeMembersF f t with
          | none => rw [hr] at h; cases h
          | some d2 =>
            rw [hr] at h
            simp only [Option.map_some', Option.some.injEq] at h
            subst h
            refine ⟨fun hc => absurd hc hpr, fun j hj _ => ?_⟩
            injection hj with hj
            subst hj
            simp [dictGet]
    · rw [if_neg hk] at hw
      by_cases h1 : dunderChk nm = true
      · rw [if_pos h1] at h
        exact ih d h hw
      · rw [if_neg h1] at h
        by_cases h2 : isPropObjV mv = true
        · rw [if_pos h2] at h
          exact ih d h hw
        · rw [if_neg h2] at h
          by_cases h3 : isPrimVal mv = true
          · rw [if_pos h3] at h
            cases hr : serializeMembersF f t with
            | none => rw [hr] at h; cases h
            | some d2 =>
              rw [hr] at h
              simp only [Option.map_some', Option.some.injEq] at h
              subst h
              have := ih d2 hr hw
              simpa [dictGet, hk] using this
          · rw [if_neg h3] at h
            cases hfv : f mv with
            | none => rw [hfv] at h; cases h
            | some j1 =>
              rw [hfv] at h
              cases hr : serializeMembersF f t with
              | none => rw [hr] at h; cases h
              | some d2 =>
                rw [hr] at h
                simp only [Option.map_some', Option.some.injEq] at h
                subst h
                have := ih d2 hr hw
                simpa [dictGet, hk] using this

/-- `isPropOpt` on a present value is the descriptor test on the value. -/
theorem isPropOpt_some (v : PyVal) : isPropOpt (some v) = isPropObjV v := by
  cases v <;> rfl

/-- The keys the serializer emits, over an association list built from a name
list: exactly the non-dunder names whose `getattr` value is not a raw
`property` descriptor, in enumeration order. -/
theorem serMembers_keys (f : PyVal → Option PyVal) (names : List String)
    (g : String → Option PyVal) (hg : ∀ nm ∈ names, (g nm).isSome = true)
    (d : List (String × PyVal))
    (h : serializeMembersF f (names.filterMap fun nm => (g nm).map fun v => (nm, v)) =
      some d) :
    d.map Prod.fst = names.filter fun nm => !dunderChk nm && !(isPropOpt (g nm)) := by
  induction names generalizing d with
  | nil =>
    injection h with h
    rw [← h]
    rfl
  | cons nm t ih =>
    have ih2 := ih fun q hq => hg q (List.mem_cons_of_mem _ hq)
    rcases Option.isSome_iff_exists.mp (hg nm (List.mem_cons_self _ _)) with ⟨v, hv⟩
    rw [List.filterMap_cons] at h
    simp only [hv, Option.map_some'] at h
    simp only [serializeMembersF] at h
    by_cases h1 : dunderChk nm = true
    · rw [if_pos h1] at h
      have hcond : (!dunderChk nm && !(isPropOpt (g nm))) = false := by
        rw [h1]
        rfl
      rw [List.filter_cons, hcond]
      simpa using ih2 d h
    · rw [if_neg h1] at h
      have h1f : dunderChk nm = false := by
        cases hx : dunderChk nm
        · rfl
        · exact absurd hx h1
      by_cases h2 : isPropObjV v = true
      · rw [if_pos h2] at h
        have hcond : (!dunderChk nm && !(isPropOpt (g nm))) = false := by
          rw [hv, isPropOpt_some, h2, h1f]
          rfl
        rw [List.filter_cons, hcond]
        simpa using ih2 d h
      · have h2f : isPropObjV v = false := by
          cases hx : isPropObjV v
          · rfl
          · exact absurd hx h2
        rw [if_neg h2] at h
        have hcond : (!dunderChk nm && !(isPropOpt (g nm))) = true := by
          rw [hv, isPropOpt_some, h2f, h1f]
          rfl
        rw [List.filter_cons, hcond]
        simp only [if_pos rfl]
        by_cases h3 : isPrimVal v = true
        · rw [if_pos h3] at h
          cases hr : serializeMembersF f (t.filterMap fun nm => (g nm).map fun v => (nm, v))
            with
          | none => rw [hr] at h; cases h
          | some d2 =>
            rw [hr] at h
            simp only [Option.map_some', Option.some.injEq] at h
            rw [← h]
            simp only [List.map_cons]
            rw [ih2 d2 hr]
            simp
        · rw [if_neg h3] at h
          cases hfv : f v with
          | none => rw [hfv] at h; cases h
          | some j =>
            rw [hfv] at h
            cases hr : serializeMembersF f (t.filterMap fun nm => (g nm).map fun v => (nm, v))
              with
            | none => rw [hr] at h; cases h
            | some d2 =>
              rw [hr] at h
              simp only [Option.map_some', Option.some.injEq] at h
              rw [← h]
              simp only [List.map_cons]
              rw [ih2 d2 hr]
              simp

/-- C6 amended: serialization enumerates and emits every public member of the
instance — instance attributes, class attributes, computed `property` values,
and bound methods (non-primitive values, methods included, are serialized by
recursing into their own members) — and the emitted keys are exactly the
sorted non-dunder member names whose `getattr` value is not a raw `property`
descriptor object. -/
theorem c6_amended (c : ClassDef) (attrs : List (String × PyVal)) (m : Nat)
    (hm : sizeOf (PyVal.vInst c attrs) ≤ m) :
    ∃ d, serializeTJ m (.vInst c attrs) = some (.vDict d) ∧
      d.map Prod.fst = (memberNames c attrs).filter
        (fun nm => !dunderChk nm && !(isPropOpt (getattrI c attrs nm))) := by
  cases m with
  | zero =>
    have := pyval_pos (.vInst c attrs)
    omega
  | succ k =>
    have hs := serializeTotal (k + 1) (.vInst c attrs) hm
    cases hj : serializeTJ (k + 1) (.vInst c attrs) with
    | none => rw [hj] at hs; cases hs
    | some j =>
      obtain ⟨dl, rfl⟩ := serializeTJ_shape _ _ _ hj
      refine ⟨dl, rfl, ?_⟩
      have hmem : serializeMembersF (serializeTJ k)
          ((memberNames c attrs).filterMap fun nm =>
            (getattrI c attrs nm).map fun v => (nm, v)) = some dl := by
        simp only [serializeTJ] at hj
        cases hr : serializeMembersF (serializeTJ k) (getmembersV (.vInst c attrs)) with
        | none => rw [hr] at hj; cases hj
        | some d2 =>
          rw [hr] at hj
          simp only [Option.map_some', Option.some.injEq, PyVal.vDict.injEq] at hj
          rw [← hj]
          exact hr
      exact serMembers_keys (serializeTJ k) (memberNames c attrs) (getattrI c attrs)
        (fun nm hnm => getattrI_isSome c attrs nm hnm) dl hmem

/-- Witness for C6 amended at a concrete instance with a method member. -/
theorem c6_amended_witness :
    ∃ d, serializeTJ 100000 (.vInst methCls [("word", .vStr ("hi"))]) =
        some (.vDict d) ∧
      d.map Prod.fst = (memberNames methCls [("word", .vStr ("hi"))]).filter
        (fun nm => !dunderChk nm &&
          !(isPropOpt (getattrI methCls [("word", .vStr ("hi"))] nm))) :=
  c6_amended methCls [("word", .vStr ("hi"))] 100000 (by decide)

/-! ## Helper lemmas for the round trip (claim C1) -/

/-- Lookup skips a head entry with a different key. -/
theorem dictGet_cons_ne (k : String) (v : PyVal) (l : List (String × PyVal))
    (key : String) (h : k ≠ key) : dictGet ((k, v) :: l) key = dictGet l key := by
  simp [dictGet, h]

/-- `self` parameters contribute no non-`self` name. -/
theorem nonselfNames_cons_self (a : Annot) (dfl : Option PyVal) (ps : List Param) :
    nonselfNames (.mk ("self") a dfl :: ps) = nonselfNames ps := by
  simp [nonselfNames, Param.pname]

/-- A non-`self` parameter contributes its own name. -/
theorem nonselfNames_cons_ne (p : Param) (ps : List Param) (h : p.pname ≠ "self") :
    nonselfNames (p :: ps) = p.pname :: nonselfNames ps := by
  simp [nonselfNames, h]

/-- A non-`self` parameter's name is among the non-`self` names. -/
theorem mem_nonselfNames (q : Param) (ps : List Param) (hq : q ∈ ps)
    (hs : q.pname ≠ "self") : q.pname ∈ nonselfNames ps := by
  induction ps with
  | nil => cases hq
  | cons p t ih =>
    rcases List.mem_cons.mp hq with rfl | hq'
    · rw [nonselfNames_cons_ne q t hs]
      exact List.mem_cons_self _ _
    · by_cases hp : p.pname = "self"
      · rcases p with ⟨nm, a, dfl⟩
        simp only [Param.pname] at hp
        subst hp
        rw [nonselfNames_cons_self]
        exact ih hq'
      · rw [nonselfNames_cons_ne p t hp]
        exact List.mem_cons_of_mem _ (ih hq')

/-- Member-table publicness restricts to each member. -/
theorem pubMembers_mem (ms : List (String × Member)) (nm : String) (mem : Member)
    (hp : pubMembers ms = true) (hm : (nm, mem) ∈ ms) : pubMember mem = true := by
  induction ms with
  | nil => cases hm
  | cons e t ih =>
    rcases e with ⟨nm1, m1⟩
    simp only [pubMembers, Bool.and_eq_true] at hp
    rcases List.mem_cons.mp hm with heq | hm'
    · injection heq with h1 h2
      rw [h2]
      exact hp.1
    · exact ih hp.2 hm'

/-- Parameter-list publicness restricts to each parameter. -/
theorem pubParams_mem (ps : List Param) (q : Param)
    (hp : pubParams ps = true) (hq : q ∈ ps) : pubParam q = true := by
  induction ps with
  | nil => cases hq
  | cons p t ih =>
    simp only [pubParams, Bool.and_eq_true] at hp
    rcases List.mem_cons.mp hq with rfl | hq'
    · exact hp.1
    · exact ih hp.2 hq'

/-- Publicness of a class yields publicness of its resolved `__init__`
parameters. -/
theorem pubParams_of_initFilter (c : ClassDef) (nm0 : String) (ps : List Param)
    (hpub : pubCls c = true) (hf : initFilter c = [(nm0, .init ps)]) :
    pubParams ps = true := by
  have hmem : (nm0, Member.init ps) ∈ c.members := by
    have : (nm0, Member.init ps) ∈ initFilter c := by
      rw [hf]
      exact List.mem_singleton.mpr rfl
    exact List.mem_of_mem_filter this
  rcases c with ⟨cn, ms⟩
  simp only [ClassDef.members] at hmem
  simp only [pubCls] at hpub
  have := pubMembers_mem ms nm0 (.init ps) hpub hmem
  simpa [pubMember] using this

/-- A public non-`self` parameter has a non-dunder name and a public
annotation. -/
theorem pubParam_fields (q : Param) (hp : pubParam q = true) (hs : q.pname ≠ "self") :
    dunderChk q.pname = false ∧ pubAnn q.ann = true := by
  rcases q with ⟨nm, a, dfl⟩
  simp only [Param.pname] at hs
  simp only [pubParam, Bool.and_eq_true, Bool.or_eq_true] at hp
  refine ⟨?_, hp.2⟩
  rcases hp.1 with h | h
  · exact absurd (by simpa using h) hs
  · simp only [Bool.not_eq_true'] at h
    simpa [Param.pname] using h

/-- A well-typed instance is an instance value of its class. -/
theorem wtinst_shape (c : ClassDef) (v : PyVal) (h : WTInst c v) :
    ∃ attrs, v = .vInst c attrs := by
  cases h with
  | mk c nm0 ps attrs hf hnd hps => exact ⟨attrs, rfl⟩

/-- Well-typed values are never raw `property` descriptors. -/
theorem wtval_not_prop (a : Annot) (v : PyVal) (h : WTVal a v) :
    isPropObjV v = false := by
  cases h with
  | wtInt n => rfl
  | wtBool b => rfl
  | wtStr s => rfl
  | wtList xs hxs => rfl
  | wtCls c v hc =>
    rcases wtinst_shape c v hc with ⟨attrs, rfl⟩
    rfl

/-- Every attribute bound by `WTParams` comes from some parameter and is well
typed at its annotation. -/
theorem wtparams_dictGet_wt (ps : List Param) (attrs : List (String × PyVal))
    (nm : String) (w : PyVal) (hwt : WTParams ps attrs)
    (hl : dictGet attrs nm = some w) :
    ∃ p2, p2 ∈ ps ∧ p2.pname = nm ∧ WTVal p2.ann w := by
  induction ps generalizing attrs with
  | nil =>
    cases hwt
    cases hl
  | cons p t ih =>
    cases hwt
    case self =>
      rename_i a dfl hsub
      rcases ih attrs hsub hl with ⟨p2, hm, he, hw⟩
      exact ⟨p2, List.mem_cons_of_mem _ hm, he, hw⟩
    case fld =>
      rename_i v attrs2 hself hwv hsub
      simp only [dictGet] at hl
      by_cases hk : p.pname = nm
      · rw [if_pos hk] at hl
        injection hl with hl
        rw [← hl]
        exact ⟨p, List.mem_cons_self _ _, hk, hwv⟩
      · rw [if_neg hk] at hl
        rcases ih attrs2 hsub hl with ⟨p3, hm, he, hw⟩
        exact ⟨p3, List.mem_cons_of_mem _ hm, he, hw⟩

/-- Validation succeeds on the serialized form of a well-typed record:
every field is present under its own name, primitive fields pass the
`isinstance` check directly, and nested record fields pass via the recursive
load (supplied through `hnest`). -/
theorem verifyRT (mf nf B : Nat)
    (hnest : ∀ (c' : ClassDef) (w jw : PyVal), WTInst c' w → pubAnn (.aCls c') = true →
      sizeOf w ≤ B → serializeTJ mf w = some jw → loadTJ nf (.aCls c') jw = .ok w) :
    ∀ (ps : List Param) (attrs d : List (String × PyVal)),
      WTParams ps attrs →
      (nonselfNames ps).Nodup →
      pubParams ps = true →
      (∀ e ∈ attrs, sizeOf e.2 ≤ B) →
      (∀ q ∈ ps, q.pname ≠ "self" → ∀ w, dictGet attrs q.pname = some w →
        ∃ jw, dictGet d q.pname = some jw ∧ SerRel (serializeTJ mf) w jw) →
      verifyMembersF (loadTJ nf) ps (.vDict d) = .ok () := by
  intro ps
  induction ps with
  | nil =>
    intro attrs d hwt hnd hpub hsz Hd
    rfl
  | cons p t ih =>
    intro attrs d hwt hnd hpub hsz Hd
    cases hwt
    case self =>
      rename_i a dfl hsub
      rw [nonselfNames_cons_self] at hnd
      simp only [pubParams, Bool.and_eq_true] at hpub
      simp only [verifyMembersF, Param.pname, reduceIte]
      exact ih attrs d hsub hnd hpub.2 hsz fun q hq => Hd q (List.mem_cons_of_mem _ hq)
    case fld =>
      rename_i v attrs2 hself hwv hsub
      rcases p with ⟨pn, pa, pd⟩
      simp only [Param.pname] at hself
      rw [nonselfNames_cons_ne _ _ (by simpa [Param.pname] using hself)] at hnd
      rcases List.nodup_cons.mp hnd with ⟨hpn, hndt⟩
      simp only [Param.pname] at hpn
      simp only [pubParams, Bool.and_eq_true] at hpub
      obtain ⟨jv, hjv, hrel⟩ :=
        Hd (.mk pn pa pd) (List.mem_cons_self _ _) (by simpa [Param.pname] using hself)
          v (by simp [dictGet, Param.pname])
      simp only [Param.pname] at hjv
      have hv_sz : sizeOf v ≤ B := by
        have := hsz ((Param.mk pn pa pd).pname, v) (by simp [Param.pname])
        simpa using this
      have hvt : verifyMemberTypeF (loadTJ nf) (.mk pn pa pd) jv = .ok () := by
        cases hwv
        case wtInt =>
          rcases hrel with ⟨hprim, rfl⟩ | ⟨hprim, _⟩
          · simp [verifyMemberTypeF, Param.ann, isinstanceOf]
          · simp [isPrimVal] at hprim
        case wtBool =>
          rcases hrel with ⟨hprim, rfl⟩ | ⟨hprim, _⟩
          · simp [verifyMemberTypeF, Param.ann, isinstanceOf]
          · simp [isPrimVal] at hprim
        case wtStr =>
          rcases hrel with ⟨hprim, rfl⟩ | ⟨hprim, _⟩
          · simp [verifyMemberTypeF, Param.ann, isinstanceOf]
          · simp [isPrimVal] at hprim
        case wtList =>
          rename_i xs hxs
          rcases hrel with ⟨hprim, rfl⟩ | ⟨hprim, _⟩
          · simp [verifyMemberTypeF, Param.ann, isinstanceOf]
          · simp [isPrimVal] at hprim
        case wtCls =>
          rename_i c' hc
          rcases wtinst_shape c' v hc with ⟨attrs3, rfl⟩
          rcases hrel with ⟨hprim, _⟩ | ⟨hprim, hser⟩
          · simp [isPrimVal] at hprim
          · have hpa : pubAnn (.aCls c') = true := by
              have := pubParam_fields (.mk pn (.aCls c') pd) hpub.1
                (by simpa [Param.pname] using hself)
              exact this.2
            have hload := hnest c' (.vInst c' attrs3) jv hc hpa hv_sz hser
            rcases serializeTJ_shape mf (.vInst c' attrs3) jv hser with ⟨dl, rfl⟩
            simp only [verifyMemberTypeF, Param.ann]
            rw [hload]
            exact rfl
      simp only [verifyMembersF, Param.pname, if_neg hself]
      rw [show pyContains (.vDict d) pn = .ok true from by simp [pyContains, hjv]]
      dsimp only
      rw [show pyGetItem (.vDict d) pn = .ok jv from by simp [pyGetItem, hjv]]
      dsimp only
      rw [hvt]
      dsimp only
      refine ih attrs2 d hsub hndt hpub.2
        (fun e he => hsz e (List.mem_cons_of_mem _ he)) ?_
      intro q hq hqs w hw
      have hqn : q.pname ≠ pn := by
        intro he
        exact hpn (he ▸ mem_nonselfNames q t hq hqs)
      refine Hd q (List.mem_cons_of_mem _ hq) hqs w ?_
      rw [dictGet_cons_ne _ _ _ _ (show (Param.mk pn pa pd).pname ≠ q.pname from Ne.symm hqn)]
      exact hw

/-- Construction rebuilds exactly the original attributes from the
serialized form of a well-typed record. -/
theorem deserializeRT (mf nf B : Nat)
    (hnest : ∀ (c' : ClassDef) (w jw : PyVal), WTInst c' w → pubAnn (.aCls c') = true →
      sizeOf w ≤ B → serializeTJ mf w = some jw → loadTJ nf (.aCls c') jw = .ok w) :
    ∀ (ps : List Param) (attrs d : List (String × PyVal)),
      WTParams ps attrs →
      (nonselfNames ps).Nodup →
      pubParams ps = true →
      (∀ e ∈ attrs, sizeOf e.2 ≤ B) →
      (∀ q ∈ ps, q.pname ≠ "self" → ∀ w, dictGet attrs q.pname = some w →
        ∃ jw, dictGet d q.pname = some jw ∧ SerRel (serializeTJ mf) w jw) →
      deserializeArgsF (loadTJ nf) ps (.vDict d) = .ok attrs := by
  intro ps
  induction ps with
  | nil =>
    intro attrs d hwt hnd hpub hsz Hd
    cases hwt
    rfl
  | cons p t ih =>
    intro attrs d hwt hnd hpub hsz Hd
    cases hwt
    case self =>
      rename_i a dfl hsub
      rw [nonselfNames_cons_self] at hnd
      simp only [pubParams, Bool.and_eq_true] at hpub
      simp only [deserializeArgsF, Param.pname, reduceIte]
      exact ih attrs d hsub hnd hpub.2 hsz fun q hq => Hd q (List.mem_cons_of_mem _ hq)
    case fld =>
      rename_i v attrs2 hself hwv hsub
      rcases p with ⟨pn, pa, pd⟩
      simp only [Param.pname] at hself
      rw [nonselfNames_cons_ne _ _ (by simpa [Param.pname] using hself)] at hnd
      rcases List.nodup_cons.mp hnd with ⟨hpn, hndt⟩
      simp only [Param.pname] at hpn
      simp only [pubParams, Bool.and_eq_true] at hpub
      obtain ⟨jv, hjv, hrel⟩ :=
        Hd (.mk pn pa pd) (List.mem_cons_self _ _) (by simpa [Param.pname] using hself)
          v (by simp [dictGet, Param.pname])
      simp only [Param.pname] at hjv
      have hv_sz : sizeOf v ≤ B := by
        have := hsz ((Param.mk pn pa pd).pname, v) (by simp [Param.pname])
        simpa using this
      have hrec : deserializeArgsF (loadTJ nf) t (.vDict d) = .ok attrs2 := by
        refine ih attrs2 d hsub hndt hpub.2
          (fun e he => hsz e (List.mem_cons_of_mem _ he)) ?_
        intro q hq hqs w hw
        have hqn : q.pname ≠ pn := by
          intro he
          exact hpn (he ▸ mem_nonselfNames q t hq hqs)
        refine Hd q (List.mem_cons_of_mem _ hq) hqs w ?_
        rw [dictGet_cons_ne _ _ _ _ (show (Param.mk pn pa pd).pname ≠ q.pname from Ne.symm hqn)]
        exact hw
      simp only [deserializeArgsF, Param.pname, if_neg hself]
      rw [show pyContains (.vDict d) pn = .ok true from by simp [pyContains, hjv]]
      dsimp only
      rw [show pyGetItem (.vDict d) pn = .ok jv from by simp [pyGetItem, hjv]]
      dsimp only
      cases hwv
      case wtInt =>
        rcases hrel with ⟨hprim, rfl⟩ | ⟨hprim, _⟩
        · simp only [Param.ann, annInPrimTuple, if_true, reduceIte]
          rw [hrec]
        · simp [isPrimVal] at hprim
      case wtBool =>
        rcases hrel with ⟨hprim, rfl⟩ | ⟨hprim, _⟩
        · simp only [Param.ann, annInPrimTuple, if_true, reduceIte]
          rw [hrec]
        · simp [isPrimVal] at hprim
      case wtStr =>
        rcases hrel with ⟨hprim, rfl⟩ | ⟨hprim, _⟩
        · simp only [Param.ann, annInPrimTuple, if_true, reduceIte]
          rw [hrec]
        · simp [isPrimVal] at hprim
      case wtList =>
        rename_i xs hxs
        rcases hrel with ⟨hprim, rfl⟩ | ⟨hprim, _⟩
        · simp only [Param.ann, annInPrimTuple, if_true, reduceIte]
          rw [hrec]
        · simp [isPrimVal] at hprim
      case wtCls =>
        rename_i c' hc
        rcases wtinst_shape c' v hc with ⟨attrs3, rfl⟩
        rcases hrel with ⟨hprim, _⟩ | ⟨hprim, hser⟩
        · simp [isPrimVal] at hprim
        · have hpa : pubAnn (.aCls c') = true := by
            have := pubParam_fields (.mk pn (.aCls c') pd) hpub.1
              (by simpa [Param.pname] using hself)
            exact this.2
          have hload := hnest c' (.vInst c' attrs3) jv hc hpa hv_sz hser
          simp only [Param.ann]
          rw [hload, hrec]
          exact rfl

/-- Auxiliary induction for the round trip, on a bound for the instance
size. -/
theorem rtAux : ∀ (k : Nat) (c : ClassDef) (x : PyVal), WTInst c x → pubCls c = true →
    sizeOf x ≤ k → ∀ m n, sizeOf x ≤ m → sizeOf x ≤ n →
    ∃ d, serializeTJ m x = some (.vDict d) ∧ loadTJ n (.aCls c) (.vDict d) = .ok x := by
  intro k
  induction k with
  | zero =>
    intro c x hwt hpub hk m n hm hn
    have := pyval_pos x
    omega
  | succ k ih =>
    intro c x hwt hpub hk m n hm hn
    cases hwt
    rename_i nm0 ps attrs hnd hwtps hfil
    have hxpos := pyval_pos (PyVal.vInst c attrs)
    cases m with
    | zero => omega
    | succ mf =>
      cases n with
      | zero => omega
      | succ nf =>
        have hs := serializeTotal (mf + 1) (.vInst c attrs) hm
        cases hj : serializeTJ (mf + 1) (.vInst c attrs) with
        | none => rw [hj] at hs; cases hs
        | some j =>
          obtain ⟨dl, rfl⟩ := serializeTJ_shape _ _ _ hj
          refine ⟨dl, rfl, ?_⟩
          have hmem : serializeMembersF (serializeTJ mf)
              (getmembersV (.vInst c attrs)) = some dl := by
            simp only [serializeTJ] at hj
            cases hr : serializeMembersF (serializeTJ mf) (getmembersV (.vInst c attrs))
              with
            | none => rw [hr] at hj; cases hj
            | some d2 =>
              rw [hr] at hj
              simp only [Option.map_some', Option.some.injEq, PyVal.vDict.injEq] at hj
              rw [hj]
          have hpubps : pubParams ps = true := pubParams_of_initFilter c nm0 ps hpub hfil
          have hnest : ∀ (c' : ClassDef) (w jw : PyVal), WTInst c' w →
              pubAnn (.aCls c') = true → sizeOf w ≤ min (min k mf) nf →
              serializeTJ mf w = some jw → loadTJ nf (.aCls c') jw = .ok w := by
            intro c' w jw hw hpa hsz hser
            have h1 : sizeOf w ≤ k :=
              le_trans hsz (le_trans (min_le_left _ _) (min_le_left _ _))
            have h2 : sizeOf w ≤ mf :=
              le_trans hsz (le_trans (min_le_left _ _) (min_le_right _ _))
            have h3 : sizeOf w ≤ nf := le_trans hsz (min_le_right _ _)
            obtain ⟨d', hd1, hd2⟩ :=
              ih c' w hw (by simpa [pubAnn] using hpa) h1 mf nf h2 h3
            rw [hser] at hd1
            injection hd1 with hd1
            rw [hd1]
            exact hd2
          have Hd : ∀ q ∈ ps, q.pname ≠ "self" → ∀ w, dictGet attrs q.pname = some w →
              ∃ jw, dictGet dl q.pname = some jw ∧ SerRel (serializeTJ mf) w jw := by
            intro q hq hqs w hw
            have hdun : dunderChk q.pname = false :=
              (pubParam_fields q (pubParams_mem ps q hpubps hq) hqs).1
            have hprop : isPropObjV w = false := by
              rcases wtparams_dictGet_wt ps attrs q.pname w hwtps hw with ⟨p2, _, _, hwv⟩
              exact wtval_not_prop _ _ hwv
            have hga : getattrI c attrs q.pname = some w := by
              unfold getattrI
              rw [hw]
            have hmemn : q.pname ∈ memberNames c attrs := by
              unfold memberNames
              rw [mem_sortStr, mem_dedupStr, List.mem_append]
              left
              rw [← dictGet_isSome_iff, hw]
              rfl
            have hlook : dictGet (getmembersV (.vInst c attrs)) q.pname = some w := by
              rw [show getmembersV (.vInst c attrs) =
                  (memberNames c attrs).filterMap
                    (fun nm => (getattrI c attrs nm).map fun v => (nm, v)) from rfl]
              rw [dictGet_filterMap_names, if_pos hmemn]
              exact hga
            have hlem := serMembers_lookup (serializeTJ mf) (getmembersV (.vInst c attrs))
              dl q.pname w hmem hlook hdun hprop
            by_cases hpr : isPrimVal w = true
            · exact ⟨w, hlem.1 hpr, Or.inl ⟨hpr, rfl⟩⟩
            · have hwsz : sizeOf w ≤ mf := by
                have h1 := dictGet_size attrs q.pname w hw
                have h2 : sizeOf attrs < sizeOf (PyVal.vInst c attrs) := by
                  simp
                omega
              obtain ⟨jw, hjw⟩ := Option.isSome_iff_exists.mp (serializeTotal mf w hwsz)
              have hprf : isPrimVal w = false := by
                cases hx : isPrimVal w
                · rfl
                · exact absurd hx hpr
              exact ⟨jw, hlem.2 jw hjw hprf, Or.inr ⟨hprf, hjw⟩⟩
          have hszB : ∀ e ∈ attrs, sizeOf e.2 ≤ min (min k mf) nf := by
            intro e he
            have h1 := List.sizeOf_lt_of_mem he
            rcases e with ⟨a0, b0⟩
            simp only [Prod.mk.sizeOf_spec] at h1
            have h2 : sizeOf attrs < sizeOf (PyVal.vInst c attrs) := by
              simp
            show sizeOf b0 ≤ min (min k mf) nf
            refine le_min (le_min ?_ ?_) ?_ <;> omega
          have hver := verifyRT mf nf (min (min k mf) nf) hnest ps attrs dl
            hwtps hnd hpubps hszB Hd
          have hdes := deserializeRT mf nf (min (min k mf) nf) hnest ps attrs dl
            hwtps hnd hpubps hszB Hd
          simp only [loadTJ]
          rw [show resolveAnnot (.aCls c) = c from rfl, hfil]
          dsimp only
          rw [hver]
          dsimp only
          rw [hdes]

/-- C1 amended: for every well-typed record instance of a class whose
declared field types are all primitives or nested record classes and whose
field names are public (no dunder-prefixed parameter names, recursively),
deserializing the serialization reproduces the instance exactly, field by
field. -/
theorem c1_round_trip (c : ClassDef) (x : PyVal) (m n : Nat)
    (hwt : WTInst c x) (hpub : pubCls c = true)
    (hm : sizeOf x ≤ m) (hn : sizeOf x ≤ n) :
    ∃ d, serializeTJ m x = some (.vDict d) ∧ loadTJ n (.aCls c) (.vDict d) = .ok x :=
  rtAux (sizeOf x) c x hwt hpub (le_refl _) m n hm hn

/-- Witness for C1 amended at the nested instance
`Outer(inner = Inner(id = 7))`. -/
theorem c1_round_trip_witness :
    ∃ d, serializeTJ 100000
        (.vInst outerCls [("inner", .vInst innerCls [("id", .vInt 7)])]) =
        some (.vDict d) ∧
      loadTJ 100000 (.aCls outerCls) (.vDict d) =
        .ok (.vInst outerCls [("inner", .vInst innerCls [("id", .vInt 7)])]) :=
  c1_round_trip outerCls
    (.vInst outerCls [("inner", .vInst innerCls [("id", .vInt 7)])]) 100000 100000
    (WTInst.mk outerCls ("__init__")
      [selfParam, .mk ("inner") (.aCls innerCls) Option.none]
      [("inner", .vInst innerCls [("id", .vInt 7)])] rfl (by decide)
      (WTParams.self _ _ _ _
        (WTParams.fld (.mk ("inner") (.aCls innerCls) Option.none)
          (.vInst innerCls [("id", .vInt 7)]) [] [] (by decide)
          (WTVal.wtCls innerCls _
            (WTInst.mk innerCls ("__init__")
              [selfParam, .mk ("id") .aInt Option.none]
              [("id", .vInt 7)] rfl (by decide)
              (WTParams.self _ _ _ _
                (WTParams.fld (.mk ("id") .aInt Option.none) (.vInt 7) [] []
                  (by decide) (WTVal.wtInt 7) WTParams.nil))))
          WTParams.nil)))
    (by decide) (by decide) (by decide)

end TypedJSON
